import Mathlib

/-!
Shallow embedding of `src/app.py` (Weez-Cloud-API), a Flask facade over an
Azure blob container.  The blob container is modelled as an association list
from storage keys to blobs.  External collaborators enter as explicit
parameters or as faithful models of their documented behaviour:
`g : String → Option String` stands for `mimetypes.guess_type` (first
component), `decode` and `encodePNG` stand for the PIL image codec, and
`pilThumbnail100` models `PIL.Image.thumbnail((100, 100))` at the level of
image dimensions.  Clock instants are natural numbers counting seconds, so
`timedelta(hours = d)` is `3600 * d`.  Strings are modelled at the character
level: `str.lower` is `strLower` (ASCII model), the Python membership test
`t in s` is `strContains s t`, `key.split("/")` is `splitSlash`, and
`os.path.splitext(p)[1]` is `splitextExt`.  The float division of the
storage-usage route is modelled exactly over the rationals.
-/

namespace WeezCloud

/-- Opaque payload bytes of a stored object. -/
abbrev Bytes := List Nat

/-- A decoded raster image: its dimensions plus an opaque content tag.
The codec model lets resizing change the dimensions and keep the tag. -/
structure Img where
  width : Nat
  height : Nat
  tag : Nat
deriving DecidableEq

/-- One stored blob: byte size, the store-level content type header, the
descriptive metadata dictionary and the payload. -/
structure Blob where
  size : Nat
  contentType : Option String
  metadata : List (String × String)
  bytes : Bytes
deriving DecidableEq

/-- The blob container, keyed by full storage key. -/
abbrev Store := List (String × Blob)

/-- Python dict lookup `d.get(k)`. -/
def dictGet : List (String × String) → String → Option String
  | [], _ => none
  | (k', v) :: rest, k => if k' = k then some v else dictGet rest k

/-- Python dict lookup with a default, `d.get(k, dflt)`. -/
def dictGetD (d : List (String × String)) (k dflt : String) : String :=
  (dictGet d k).getD dflt

/-- Python dict update `d[k] = v`: replace the binding in place, else append. -/
def dictSet : List (String × String) → String → String → List (String × String)
  | [], k, v => [(k, v)]
  | (k', v') :: rest, k, v =>
      if k' = k then (k, v) :: rest else (k', v') :: dictSet rest k v

/-- Read a blob by key. -/
def storeGet : Store → String → Option Blob
  | [], _ => none
  | (k', b) :: rest, k => if k' = k then some b else storeGet rest k

/-- Write a blob at a key, overwriting a prior blob there (upload with
`overwrite=True`). -/
def storePut : Store → String → Blob → Store
  | [], k, b => [(k, b)]
  | (k', b') :: rest, k, b =>
      if k' = k then (k, b) :: rest else (k', b') :: storePut rest k b

/-- Delete every entry stored at a key (`delete_blob`). -/
def storeErase (s : Store) (k : String) : Store :=
  s.filter (fun kv => !(kv.1 == k))

/-- ASCII model of Python `s.lower()`. -/
def strLower (s : String) : String := String.mk (s.data.map Char.toLower)

/-- Python `s.startswith(p)`. -/
def strIsPrefixOf (p s : String) : Bool := p.data.isPrefixOf s.data

/-- Occurrence of a character list inside another (`t` occurs in the second
argument), mirroring Python substring membership. -/
def charsContains (t : List Char) : List Char → Bool
  | [] => t.isEmpty
  | c :: s' => t.isPrefixOf (c :: s') || charsContains t s'

/-- Python substring membership `t in s`. -/
def strContains (s t : String) : Bool := charsContains t.data s.data

/-- Propositional form of Python substring membership `t in s`. -/
def SubStr (t s : String) : Prop := ∃ l r, s.data = l ++ t.data ++ r

/-- Python `s.split("/")` at the character level. -/
def splitSlash : List Char → List (List Char)
  | [] => [[]]
  | c :: rest =>
      if c = '/' then [] :: splitSlash rest
      else
        match splitSlash rest with
        | [] => [[c]]
        | h :: t => (c :: h) :: t

/-- Python `key.split("/")[1]` as used by the list and search routes; keys
enumerated by those routes always contain a separator, a missing index is
modelled as the empty string. -/
def nameSeg (k : String) : String :=
  match splitSlash k.data with
  | _ :: seg :: _ => String.mk seg
  | _ => ""

/-- Suffix of a character list starting at its last dot, paired with the
characters before that dot, when a dot occurs at all. -/
def lastDotSuffix : List Char → Option (List Char × List Char)
  | [] => none
  | c :: rest =>
      match lastDotSuffix rest with
      | some (pre, suf) => some (c :: pre, suf)
      | none => if c = '.' then some ([], c :: rest) else none

/-- Python `os.path.splitext(filename)[1]`: the extension of the last path
component, empty when the only dots are leading dots. -/
def splitextExt (s : String) : String :=
  match lastDotSuffix ((splitSlash s.data).getLastD []) with
  | some (pre, suf) => if pre.any (fun c => c != '.') then String.mk suf else ""
  | none => ""

/-- The fixed fallback table of `get_mime_type` in app.py. -/
def fallbackMimeTable : List (String × String) :=
  [(".doc", "application/msword"),
   (".docx", "application/vnd.openxmlformats-officedocument.wordprocessingml.document"),
   (".xls", "application/vnd.ms-excel"),
   (".xlsx", "application/vnd.openxmlformats-officedocument.spreadsheetml.sheet"),
   (".ppt", "application/vnd.ms-powerpoint"),
   (".pptx", "application/vnd.openxmlformats-officedocument.presentationml.presentation"),
   (".pdf", "application/pdf"),
   (".txt", "text/plain"),
   (".csv", "text/csv"),
   (".jpg", "image/jpeg"),
   (".jpeg", "image/jpeg"),
   (".png", "image/png"),
   (".gif", "image/gif")]

/-- Function `get_mime_type` of app.py, with `mimetypes.guess_type`
abstracted as the collaborator `g`. -/
def get_mime_type (g : String → Option String) (filename : String) : String :=
  match g filename with
  | some m => m
  | none =>
      (dictGet fallbackMimeTable (strLower (splitextExt filename))).getD
        "application/octet-stream"

/-- The inline pattern of the search and thumbnail routes:
`mimetypes.guess_type(name)[0] or "application/octet-stream"`. -/
def guessOrOctet (g : String → Option String) (filename : String) : String :=
  (g filename).getD "application/octet-stream"

/-- The key namespace map of `get_blob_client`. -/
def blobName (email filename : String) : String := email ++ "/" ++ filename

/-- The derived preview key of the thumbnail route. -/
def thumbKey (email filename : String) : String :=
  email ++ "/thumbnails/" ++ filename ++ ".png"

/-- `list_blobs(name_starts_with=f"{email}/")`. -/
def prefixBlobs (s : Store) (email : String) : List (String × Blob) :=
  s.filter (fun kv => strIsPrefixOf (email ++ "/") kv.1)

/-- One element of the file lists returned by the list and search routes. -/
structure FileSummary where
  name : String
  size : Nat
  upload_date : String
  mime_type : String
  starred : Bool
deriving DecidableEq

/-- One element of the comprehension in the `/list` route. -/
def listEntry (g : String → Option String) (kb : String × Blob) : FileSummary :=
  { name := nameSeg kb.1
    size := kb.2.size
    upload_date := dictGetD kb.2.metadata "upload_date" ""
    mime_type := (dictGet kb.2.metadata "mime_type").getD (get_mime_type g (nameSeg kb.1))
    starred := dictGetD kb.2.metadata "starred" "false" == "true" }

/-- Route `/list`. -/
def list_files (g : String → Option String) (s : Store) (email : String) :
    List FileSummary :=
  (prefixBlobs s email).map (listEntry g)

/-- One element of the comprehension in the `/search` route: its MIME type
comes from pure extension inference, unlike `listEntry`. -/
def searchEntry (g : String → Option String) (kb : String × Blob) : FileSummary :=
  { name := nameSeg kb.1
    size := kb.2.size
    upload_date := dictGetD kb.2.metadata "upload_date" ""
    mime_type := guessOrOctet g (nameSeg kb.1)
    starred := dictGetD kb.2.metadata "starred" "false" == "true" }

/-- The unfiltered view the `/search` route builds before filtering. -/
def searchView (g : String → Option String) (s : Store) (email : String) :
    List FileSummary :=
  (prefixBlobs s email).map (searchEntry g)

/-- Route `/search`: the query is lowercased once, then the three substring
filters are conjoined (an empty filter matches everything). -/
def search_files (g : String → Option String) (s : Store)
    (email query type_filter date_filter : String) : List FileSummary :=
  let q := strLower query
  (searchView g s email).filter (fun f =>
    (strContains (strLower f.name) q || q == "") &&
    (strContains f.mime_type type_filter || type_filter == "") &&
    (strContains f.upload_date date_filter || date_filter == ""))

/-- Outcome of the `/star` route. -/
inductive StarResult where
  | ok (message : String) (status : Nat)
  | err (status : Nat)
deriving DecidableEq

/-- Route `/star`: reads the blob's metadata (the store collaborator raises
when the blob is absent, caught by the route into a 500 error payload),
merges the starred flag into the record and writes the record back. -/
def star_file (s : Store) (email filename : String) (starred : Bool) :
    StarResult × Store :=
  match storeGet s (blobName email filename) with
  | none => (.err 500, s)
  | some b =>
      let md := dictSet b.metadata "starred" (if starred then "true" else "false")
      (.ok ("File " ++ filename ++ " starred status updated") 200,
       storePut s (blobName email filename) { b with metadata := md })

/-- Outcome of the `/delete` route. -/
inductive DeleteResult where
  | ok (message : String) (status : Nat)
  | err (status : Nat)
deriving DecidableEq

/-- Route `/delete`: deletes exactly the one key `{email}/{filename}`
(`delete_blob` raises on a missing blob, caught into a 500 error payload). -/
def delete_file (s : Store) (email filename : String) : DeleteResult × Store :=
  match storeGet s (blobName email filename) with
  | none => (.err 500, s)
  | some _ =>
      (.ok ("File " ++ filename ++ " deleted successfully") 200,
       storeErase s (blobName email filename))

/-- A signed URL: the key it grants read access to, its expiry instant, and
the advisory MIME query parameter when one is appended. -/
structure SasUrl where
  key : String
  expiry : Nat
  mimeParam : Option String
deriving DecidableEq

/-- Outcome of the `/generate-sas` route. -/
inductive SasResult where
  | ok (url : SasUrl) (mime_type : String)
  | err (status : Nat)
deriving DecidableEq

/-- Route `/generate-sas`: the MIME type it reports is the store-level
content type header when that is set and non-empty (Python `or` on the
falsy empty string), else `get_mime_type` of the filename. -/
def generate_sas (g : String → Option String) (s : Store)
    (email filename : String) (duration now : Nat) : SasResult :=
  match storeGet s (blobName email filename) with
  | none => .err 500
  | some b =>
      let mime :=
        match b.contentType with
        | some ct => if ct = "" then get_mime_type g filename else ct
        | none => get_mime_type g filename
      .ok { key := blobName email filename
            expiry := now + 3600 * duration
            mimeParam := some mime } mime

/-- Nearest integer to `num / den` with ties rounding down, clamped to at
least 1: the rounding PIL applies to the proportionally scaled dimension. -/
def pilRound (num den : Nat) : Nat :=
  if den = 0 then 1
  else max 1 (if 2 * (num % den) ≤ den then num / den else num / den + 1)

/-- Dimension-level model of `PIL.Image.thumbnail((100, 100))`: no change
when the image already fits in the box, otherwise the larger side is scaled
to 100 and the other side is rounded proportionally; content is carried
unchanged. -/
def pilThumbnail100 (img : Img) : Img :=
  if img.width ≤ 100 ∧ img.height ≤ 100 then img
  else if img.width ≤ img.height then
    { img with width := pilRound (100 * img.width) img.height, height := 100 }
  else
    { img with width := 100, height := pilRound (100 * img.height) img.width }

/-- Outcome of the `/thumbnail` route. -/
inductive ThumbResult where
  | url (u : SasUrl)
  | noThumb (message : String)
  | err (status : Nat)
deriving DecidableEq

/-- Route `/thumbnail`, with the image codec abstracted: `decode` models
`PIL.Image.open` (`none` on undecodable bytes, which the route catches into
a 500 error payload) and `encodePNG` models saving the resized image with
`format="PNG"`.  The 1-hour signed URL is computed against the derived key
and the encoded bytes are uploaded there with `overwrite=True`. -/
def generate_thumbnail (g : String → Option String) (decode : Bytes → Option Img)
    (encodePNG : Img → Bytes) (s : Store) (email filename : String) (now : Nat) :
    ThumbResult × Store :=
  if strIsPrefixOf "image" (guessOrOctet g filename) then
    match storeGet s (blobName email filename) with
    | none => (.err 500, s)
    | some b =>
        match decode b.bytes with
        | none => (.err 500, s)
        | some img =>
            let tdata := encodePNG (pilThumbnail100 img)
            (.url { key := thumbKey email filename
                    expiry := now + 3600 * 1
                    mimeParam := none },
             storePut s (thumbKey email filename)
               { size := tdata.length, contentType := none, metadata := [],
                 bytes := tdata })
  else (.noThumb "No thumbnail available", s)

/-- Route `/storage-usage`: exact-rational model of the float division by
`1024 * 1024`.  The route applies no exclusion to the enumerated keys. -/
def storage_usage (s : Store) (email : String) : ℚ :=
  (((prefixBlobs s email).map (fun kv => (kv.2.size : ℚ))).sum) / (1024 * 1024)

/-- A primary MIME lookup that always comes back inconclusive. -/
def gNone : String → Option String := fun _ => none

/-- Concrete primary MIME lookup for the search examples. -/
def gSearchDemo : String → Option String := fun f =>
  if f = "a.pdf" then some "application/pdf"
  else if f = "b.png" then some "image/png"
  else none

/-- Concrete primary MIME lookup for the thumbnail examples. -/
def gImgDemo : String → Option String := fun f =>
  if f = "pic.bmp" then some "image/bmp" else none

/-- Concrete codec decoder for the thumbnail examples. -/
def decodeDemo : Bytes → Option Img := fun bs =>
  if bs = [7] then some { width := 250, height := 100, tag := 7 } else none

/-- Concrete PNG encoder for the thumbnail examples. -/
def encodeDemo : Img → Bytes := fun i => [i.width, i.height, i.tag]

/-- A blob carrying the two metadata fields of the star-toggle example. -/
def blobDemo : Blob :=
  { size := 3, contentType := some "text/plain",
    metadata := [("upload_date", "2024-01-05"), ("mime_type", "text/plain")],
    bytes := [] }

/-- Store for the star-toggle example. -/
def starStoreDemo : Store := [("alice/a.txt", blobDemo)]

/-- A blob whose store content type disagrees with its cached metadata. -/
def mixBlob : Blob :=
  { size := 5, contentType := some "application/pdf",
    metadata := [("mime_type", "text/plain")], bytes := [] }

/-- Store exhibiting the list/share MIME divergence. -/
def mixStore : Store := [("alice/doc.bin", mixBlob)]

/-- Store for the search examples of the spec. -/
def searchStoreDemo : Store :=
  [("u/a.pdf",
    { size := 1, contentType := none,
      metadata := [("upload_date", "2024-01-05")], bytes := [] }),
   ("u/b.png",
    { size := 2, contentType := none,
      metadata := [("upload_date", "2024-02-01")], bytes := [] })]

/-- Store for the thumbnail examples. -/
def thumbStoreDemo : Store :=
  [("alice/pic.bmp",
    { size := 1, contentType := none, metadata := [], bytes := [7] })]

/-- Store for the storage-usage example of the spec. -/
def usageStoreDemo : Store :=
  [("alice/a.bin",
    { size := 1048576, contentType := none, metadata := [], bytes := [] }),
   ("alice/b.bin",
    { size := 2097152, contentType := none, metadata := [], bytes := [] }),
   ("alice/thumbnails/a.bin.png",
    { size := 524288, contentType := none, metadata := [], bytes := [] })]

/-- Store holding an image and its derived preview, for the delete example. -/
def deleteStoreDemo : Store :=
  [("alice/pic.png",
    { size := 1048576, contentType := none, metadata := [], bytes := [] }),
   ("alice/thumbnails/pic.png.png",
    { size := 524288, contentType := none, metadata := [], bytes := [] })]

/-- Store holding only a derived preview, for the name-recovery example. -/
def segStoreDemo : Store :=
  [("alice/thumbnails/pic.png",
    { size := 1, contentType := none, metadata := [], bytes := [] })]

/-- Updating one key of a record leaves every other key's binding alone. -/
theorem dictGet_dictSet_ne (d : List (String × String)) (k k' v : String)
    (h : k' ≠ k) : dictGet (dictSet d k v) k' = dictGet d k' := by
  induction d with
  | nil => simp [dictSet, dictGet, Ne.symm h]
  | cons kv rest ih =>
      obtain ⟨k0, v0⟩ := kv
      by_cases hk : k0 = k
      · subst hk
        simp [dictSet, dictGet, Ne.symm h]
      · simp [dictSet, dictGet, hk, ih]

/-- Reading back the key just written. -/
theorem storeGet_storePut_self (s : Store) (k : String) (b : Blob) :
    storeGet (storePut s k b) k = some b := by
  induction s with
  | nil => simp [storePut, storeGet]
  | cons kv rest ih =>
      obtain ⟨k0, b0⟩ := kv
      by_cases hk : k0 = k
      · subst hk; simp [storePut, storeGet]
      · simp [storePut, storeGet, hk, ih]

/-- Writing one key leaves every other key's blob alone. -/
theorem storeGet_storePut_ne (s : Store) (k k' : String) (b : Blob)
    (h : k' ≠ k) : storeGet (storePut s k b) k' = storeGet s k' := by
  induction s with
  | nil => simp [storePut, storeGet, Ne.symm h]
  | cons kv rest ih =>
      obtain ⟨k0, b0⟩ := kv
      by_cases hk : k0 = k
      · subst hk
        simp [storePut, storeGet, Ne.symm h]
      · simp [storePut, storeGet, hk, ih]

/-- A successful read exhibits a member of the store. -/
theorem storeGet_mem (s : Store) (k : String) (b : Blob)
    (h : storeGet s k = some b) : (k, b) ∈ s := by
  induction s with
  | nil => simp [storeGet] at h
  | cons kv rest ih =>
      obtain ⟨k0, b0⟩ := kv
      by_cases hk : k0 = k
      · subst hk
        simp [storeGet] at h
        simp [h]
      · simp [storeGet, hk] at h
        exact List.mem_cons_of_mem _ (ih h)

/-- The erased key reads back as absent. -/
theorem storeGet_storeErase_self (s : Store) (k : String) :
    storeGet (storeErase s k) k = none := by
  induction s with
  | nil => simp [storeErase, storeGet]
  | cons kv rest ih =>
      obtain ⟨k0, b0⟩ := kv
      by_cases hk : k0 = k
      · subst hk; simpa [storeErase, storeGet] using ih
      · simpa [storeErase, storeGet, hk] using ih

/-- Erasing one key leaves every other key's blob alone. -/
theorem storeGet_storeErase_ne (s : Store) (k k' : String)
    (h : k' ≠ k) : storeGet (storeErase s k) k' = storeGet s k' := by
  induction s with
  | nil => simp [storeErase, storeGet]
  | cons kv rest ih =>
      obtain ⟨k0, b0⟩ := kv
      by_cases hk : k0 = k
      · subst hk
        simpa [storeErase, storeGet, Ne.symm h] using ih
      · by_cases hk' : k0 = k'
        · subst hk'; simp [storeErase, storeGet, hk]
        · simpa [storeErase, storeGet, hk, hk'] using ih

/-- Writing a fresh key appends it at the end of the enumeration. -/
theorem storePut_fresh (s : Store) (k : String) (b : Blob)
    (h : storeGet s k = none) : storePut s k b = s ++ [(k, b)] := by
  induction s with
  | nil => simp [storePut]
  | cons kv rest ih =>
      obtain ⟨k0, b0⟩ := kv
      by_cases hk : k0 = k
      · subst hk; simp [storeGet] at h
      · simp [storeGet, hk] at h
        simp [storePut, hk, ih h]

/-- Boolean prefix test of character lists, in propositional form. -/
theorem charsPrefix_iff (t : List Char) : ∀ s : List Char,
    t.isPrefixOf s = true ↔ ∃ r, s = t ++ r := by
  induction t with
  | nil => intro s; simp [List.isPrefixOf]
  | cons c t' ih =>
      intro s
      cases s with
      | nil => simp [List.isPrefixOf]
      | cons d s' =>
          simp only [List.isPrefixOf, Bool.and_eq_true, beq_iff_eq, ih s']
          constructor
          · rintro ⟨rfl, r, rfl⟩
            exact ⟨r, rfl⟩
          · rintro ⟨r, hr⟩
            rw [List.cons_append] at hr
            obtain ⟨h1, h2⟩ := List.cons.injEq .. ▸ hr
            exact ⟨h1.symm, r, h2⟩

/-- Boolean substring test of character lists, in propositional form. -/
theorem charsContains_iff (t : List Char) : ∀ s : List Char,
    charsContains t s = true ↔ ∃ l r, s = l ++ t ++ r := by
  intro s
  induction s with
  | nil =>
      simp only [charsContains, List.isEmpty_iff]
      constructor
      · rintro rfl; exact ⟨[], [], rfl⟩
      · rintro ⟨l, r, h⟩
        rcases List.append_eq_nil.mp h.symm with ⟨h1, h2⟩
        exact (List.append_eq_nil.mp h1).2
  | cons c s' ih =>
      simp only [charsContains, Bool.or_eq_true, charsPrefix_iff, ih]
      constructor
      · rintro (⟨r, hr⟩ | ⟨l, r, hr⟩)
        · exact ⟨[], r, by simpa using hr⟩
        · exact ⟨c :: l, r, by simp [hr]⟩
      · rintro ⟨l, r, hr⟩
        cases l with
        | nil => exact Or.inl ⟨r, by simpa using hr⟩
        | cons c0 l' =>
            right
            refine ⟨l', r, ?_⟩
            simp only [List.cons_append] at hr
            injection hr with h1 h2

/-- Appending strings concatenates their character data. -/
theorem strData_append (a b : String) : (a ++ b).data = a.data ++ b.data := rfl

/-- Python substring membership in propositional form. -/
theorem strContains_iff (s t : String) : strContains s t = true ↔ SubStr t s := by
  simp [strContains, SubStr, charsContains_iff]

/-- A string prefixed with itself passes `startswith`. -/
theorem strIsPrefixOf_self_append (p t : String) :
    strIsPrefixOf p (p ++ t) = true := by
  rw [strIsPrefixOf, strData_append, charsPrefix_iff]
  exact ⟨t.data, rfl⟩

/-- A `startswith` for a longer pattern implies it for any pattern chopped
off its end. -/
theorem strIsPrefixOf_mono (p q s : String)
    (h : strIsPrefixOf (p ++ q) s = true) : strIsPrefixOf p s = true := by
  rw [strIsPrefixOf, charsPrefix_iff] at h ⊢
  obtain ⟨r, hr⟩ := h
  rw [strData_append] at hr
  exact ⟨q.data ++ r, by simp [hr]⟩

/-- Lowercasing gives the empty string only on the empty string. -/
theorem strLower_eq_empty_iff (q : String) : strLower q = "" ↔ q = "" := by
  constructor
  · intro h
    have hd : (strLower q).data = ("" : String).data := by rw [h]
    simp only [strLower] at hd
    cases q with
    | mk l =>
        cases l with
        | nil => rfl
        | cons c l' => simp at hd
  · rintro rfl; rfl

/-- Splitting on slashes never yields an empty list of segments. -/
theorem splitSlash_ne_nil (l : List Char) : splitSlash l ≠ [] := by
  cases l with
  | nil => simp [splitSlash]
  | cons c rest =>
      by_cases hc : c = '/'
      · simp [splitSlash, hc]
      · simp only [splitSlash, hc, if_false]
        rcases h : splitSlash rest with _ | ⟨h0, t0⟩ <;> simp

/-- The first slash-separated segment is the leading run of non-slash
characters. -/
theorem splitSlash_head (l : List Char) :
    ∃ t, splitSlash l = l.takeWhile (fun c => c != '/') :: t := by
  induction l with
  | nil => exact ⟨[], rfl⟩
  | cons c rest ih =>
      by_cases hc : c = '/'
      · subst hc
        refine ⟨splitSlash rest, ?_⟩
        simp [splitSlash, List.takeWhile]
      · obtain ⟨t, ht⟩ := ih
        refine ⟨t, ?_⟩
        have hb : (c != '/') = true := by simp [hc]
        simp only [splitSlash, hc, if_false, ht, List.takeWhile, hb]

/-- Splitting a concatenation at its first slash. -/
theorem splitSlash_append (a b : List Char) (ha : '/' ∉ a) :
    splitSlash (a ++ '/' :: b) = a :: splitSlash b := by
  induction a with
  | nil => simp [splitSlash]
  | cons c a' ih =>
      have hc : c ≠ '/' := fun h => ha (h ▸ List.mem_cons_self c a')
      have ha' : '/' ∉ a' := fun h => ha (List.mem_cons_of_mem c h)
      show splitSlash (c :: (a' ++ '/' :: b)) = (c :: a') :: splitSlash b
      simp only [splitSlash, hc, if_false]
      rw [ih ha']

/-- Name recovery of the list and search routes on a well-formed key: the
second slash-separated segment. -/
theorem nameSeg_append (owner rest : String) (h : '/' ∉ owner.data) :
    nameSeg (owner ++ "/" ++ rest) =
      String.mk (rest.data.takeWhile (fun c => c != '/')) := by
  have hdata : (owner ++ "/" ++ rest).data = owner.data ++ '/' :: rest.data := by
    rw [strData_append, strData_append]
    have hs : ("/" : String).data = ['/'] := rfl
    rw [hs]
    simp
  rw [nameSeg, hdata, splitSlash_append owner.data rest.data h]
  obtain ⟨t, ht⟩ := splitSlash_head rest.data
  rw [ht]

/-- The proportional rounding never overshoots the target bound. -/
theorem pilRound_le (num den B : Nat) (hd : 0 < den) (hB : 1 ≤ B)
    (h : num ≤ B * den) : pilRound num den ≤ B := by
  have hq : num / den ≤ B := by
    have h1 : num / den * den ≤ num := Nat.div_mul_le_self num den
    exact Nat.le_of_mul_le_mul_right (le_trans h1 h) hd
  unfold pilRound
  rw [if_neg (Nat.pos_iff_ne_zero.mp hd)]
  by_cases h2 : 2 * (num % den) ≤ den
  · rw [if_pos h2]
    exact max_le hB hq
  · rw [if_neg h2]
    have hr1 : num % den ≠ 0 := by
      intro h0
      exact h2 (by simp [h0])
    have hne : num ≠ B * den := by
      intro he
      exact hr1 (by rw [he]; exact Nat.mul_mod_left B den)
    have hq' : num / den < B :=
      (Nat.div_lt_iff_lt_mul hd).mpr (lt_of_le_of_ne h hne)
    exact max_le hB (Nat.succ_le_of_lt hq')

/-- The proportional rounding errs by less than one denominator unit. -/
theorem pilRound_bounds (num den : Nat) (hd : 0 < den) :
    den * pilRound num den ≤ num + den ∧ num ≤ den * pilRound num den + den := by
  obtain ⟨q, r, hq, hr, hnum⟩ :
      ∃ q r, num / den = q ∧ num % den = r ∧ num = den * q + r :=
    ⟨_, _, rfl, rfl, (Nat.div_add_mod num den).symm⟩
  have hrd : r < den := hr ▸ Nat.mod_lt _ hd
  unfold pilRound
  rw [if_neg (Nat.pos_iff_ne_zero.mp hd), hq, hr]
  by_cases h2 : 2 * r ≤ den
  · rw [if_pos h2]
    rcases Nat.eq_zero_or_pos q with hq0 | hq1
    · subst hq0
      rw [Nat.max_zero]
      omega
    · rw [Nat.max_eq_right hq1]
      constructor <;> linarith [hnum, hrd]
  · rw [if_neg h2]
    have h2' : den < 2 * r := Nat.lt_of_not_le h2
    rw [Nat.max_eq_right (Nat.succ_le_succ (Nat.zero_le q))]
    have hmul : den * (q + 1) = den * q + den := by ring
    constructor <;> linarith [hnum, hrd, hmul]

/-- An image already inside the 100 by 100 box is left untouched. -/
theorem pilThumbnail100_fits (img : Img)
    (h : img.width ≤ 100 ∧ img.height ≤ 100) : pilThumbnail100 img = img := by
  unfold pilThumbnail100
  rw [if_pos h]

/-- Both dimensions of the derived thumbnail are bounded by 100. -/
theorem pilThumbnail100_le (img : Img) (hw : 1 ≤ img.width)
    (hh : 1 ≤ img.height) :
    (pilThumbnail100 img).width ≤ 100 ∧ (pilThumbnail100 img).height ≤ 100 := by
  unfold pilThumbnail100
  by_cases hfit : img.width ≤ 100 ∧ img.height ≤ 100
  · rw [if_pos hfit]
    exact hfit
  · rw [if_neg hfit]
    by_cases hwh : img.width ≤ img.height
    · rw [if_pos hwh]
      refine ⟨?_, le_refl 100⟩
      show pilRound (100 * img.width) img.height ≤ 100
      exact pilRound_le _ _ _ hh (by norm_num) (Nat.mul_le_mul_left 100 hwh)
    · rw [if_neg hwh]
      refine ⟨le_refl 100, ?_⟩
      show pilRound (100 * img.height) img.width ≤ 100
      exact pilRound_le _ _ _ hw (by norm_num)
        (Nat.mul_le_mul_left 100 (le_of_lt (Nat.lt_of_not_le hwh)))

/-- The derived thumbnail keeps the aspect ratio up to the rounding of one
pixel: the cross products of the old and new dimensions differ by at most
the larger original side. -/
theorem pilThumbnail100_aspect (img : Img) (hw : 1 ≤ img.width)
    (hh : 1 ≤ img.height) :
    (pilThumbnail100 img).width * img.height ≤
        img.width * (pilThumbnail100 img).height + max img.width img.height ∧
    img.width * (pilThumbnail100 img).height ≤
        (pilThumbnail100 img).width * img.height + max img.width img.height := by
  unfold pilThumbnail100
  by_cases hfit : img.width ≤ 100 ∧ img.height ≤ 100
  · rw [if_pos hfit]
    exact ⟨Nat.le_add_right _ _, Nat.le_add_right _ _⟩
  · rw [if_neg hfit]
    by_cases hwh : img.width ≤ img.height
    · rw [if_pos hwh]
      have hb := pilRound_bounds (100 * img.width) img.height hh
      have hmax : max img.width img.height = img.height := max_eq_right hwh
      have hc : pilRound (100 * img.width) img.height * img.height =
          img.height * pilRound (100 * img.width) img.height := Nat.mul_comm _ _
      have h100 : img.width * 100 = 100 * img.width := Nat.mul_comm _ _
      constructor
      · show pilRound (100 * img.width) img.height * img.height ≤
            img.width * 100 + max img.width img.height
        rw [hmax, hc, h100]
        exact hb.1
      · show img.width * 100 ≤
            pilRound (100 * img.width) img.height * img.height +
              max img.width img.height
        rw [hmax, hc, h100]
        exact hb.2
    · rw [if_neg hwh]
      have hhw : img.height ≤ img.width := le_of_lt (Nat.lt_of_not_le hwh)
      have hb := pilRound_bounds (100 * img.height) img.width hw
      have hmax : max img.width img.height = img.width := max_eq_left hhw
      have hc : img.width * pilRound (100 * img.height) img.width =
          pilRound (100 * img.height) img.width * img.width := Nat.mul_comm _ _
      constructor
      · show 100 * img.height ≤
            img.width * pilRound (100 * img.height) img.width +
              max img.width img.height
        rw [hmax, hc]
        have := hb.2
        linarith [Nat.mul_comm img.width (pilRound (100 * img.height) img.width)]
      · show img.width * pilRound (100 * img.height) img.width ≤
            100 * img.height + max img.width img.height
        rw [hmax, hc]
        have := hb.1
        linarith [Nat.mul_comm img.width (pilRound (100 * img.height) img.width)]

/-- One successful star toggle is a read of the record, a merge of the
starred flag, and a write-back of the merged record. -/
theorem star_file_unfolds (s : Store) (email filename : String) (v : Bool)
    (b : Blob) (hb : storeGet s (blobName email filename) = some b) :
    star_file s email filename v =
      (.ok ("File " ++ filename ++ " starred status updated") 200,
       storePut s (blobName email filename)
         { b with metadata :=
             dictSet b.metadata "starred" (if v then "true" else "false") }) := by
  simp only [star_file, hb]

/-- C1: the star toggle is a read-merge-write of the full metadata record.
On an object whose metadata is exactly the two fields `upload_date = D` and
`mime_type = M`, toggling the star on and then off leaves the record exactly
`upload_date = D, mime_type = M, starred = "false"` with payload, size and
content type untouched; moreover any single star toggle on any object
preserves its `upload_date` and `mime_type` bindings. -/
theorem star_toggle_preserves_fields (s : Store) (email filename D M : String)
    (b : Blob) (hb : storeGet s (blobName email filename) = some b)
    (hmd : b.metadata = [("upload_date", D), ("mime_type", M)]) :
    (∃ b2, storeGet (star_file (star_file s email filename true).2
          email filename false).2 (blobName email filename) = some b2 ∧
        b2.metadata =
          [("upload_date", D), ("mime_type", M), ("starred", "false")] ∧
        b2.size = b.size ∧ b2.bytes = b.bytes ∧
        b2.contentType = b.contentType) ∧
    (∀ (s' : Store) (e f : String) (v : Bool) (b' : Blob),
      storeGet s' (blobName e f) = some b' →
      ∃ b'', storeGet (star_file s' e f v).2 (blobName e f) = some b'' ∧
        dictGet b''.metadata "upload_date" = dictGet b'.metadata "upload_date" ∧
        dictGet b''.metadata "mime_type" = dictGet b'.metadata "mime_type") := by
  constructor
  · have h1 := star_file_unfolds s email filename true b hb
    have hb1 : storeGet (star_file s email filename true).2
        (blobName email filename) =
        some { b with metadata := dictSet b.metadata "starred" "true" } := by
      rw [h1]
      exact storeGet_storePut_self ..
    have h2 := star_file_unfolds _ email filename false _ hb1
    refine ⟨{ b with
        metadata := dictSet (dictSet b.metadata "starred" "true") "starred" "false" },
      ?_, ?_, rfl, rfl, rfl⟩
    · rw [h2]
      exact storeGet_storePut_self ..
    · show dictSet (dictSet b.metadata "starred" "true") "starred" "false" =
        [("upload_date", D), ("mime_type", M), ("starred", "false")]
      rw [hmd]
      simp [dictSet]
  · intro s' e f v b' hb'
    have h3 := star_file_unfolds s' e f v b' hb'
    refine ⟨{ b' with
        metadata := dictSet b'.metadata "starred" (if v then "true" else "false") },
      by rw [h3]; exact storeGet_storePut_self .., ?_, ?_⟩
    · exact dictGet_dictSet_ne b'.metadata "starred" "upload_date" _ (by decide)
    · exact dictGet_dictSet_ne b'.metadata "starred" "mime_type" _ (by decide)

/-- Witness for C1 on a concrete store. -/
theorem star_toggle_preserves_fields_witness :
    ∃ b2, storeGet (star_file (star_file starStoreDemo "alice" "a.txt" true).2
        "alice" "a.txt" false).2 (blobName "alice" "a.txt") = some b2 ∧
      b2.metadata = [("upload_date", "2024-01-05"), ("mime_type", "text/plain"),
        ("starred", "false")] ∧
      b2.size = blobDemo.size ∧ b2.bytes = blobDemo.bytes ∧
      b2.contentType = blobDemo.contentType :=
  (star_toggle_preserves_fields starStoreDemo "alice" "a.txt" "2024-01-05"
    "text/plain" blobDemo (by decide) (by decide)).1

/-- C2 counterexample: the star toggle on an absent object does not fail
with a 404 NotFound payload; it fails with the generic 500 error payload of
the route's exception handler. -/
theorem star_missing_counterexample :
    star_file ([] : Store) "alice" "f.txt" true = (.err 500, []) ∧
    (star_file ([] : Store) "alice" "f.txt" true).1 ≠ .err 404 := by decide

/-- C2 (amended): the star toggle on an absent object fails with the
generic 500 error payload — not a distinguishable 404 — before any
mutation, leaving the store unchanged; and after a successful delete a
star toggle on the same name fails the same way. -/
theorem star_missing_generic_error (s : Store) (email filename : String)
    (v : Bool) :
    (storeGet s (blobName email filename) = none →
      star_file s email filename v = (.err 500, s)) ∧
    (∀ ob : Blob, storeGet s (blobName email filename) = some ob →
      star_file (delete_file s email filename).2 email filename v =
        (.err 500, (delete_file s email filename).2)) := by
  constructor
  · intro h
    simp [star_file, h]
  · intro ob hob
    have hd : (delete_file s email filename).2 =
        storeErase s (blobName email filename) := by
      simp [delete_file, hob]
    rw [hd]
    simp [star_file, storeGet_storeErase_self]

/-- Witness for C2 on a concrete store. -/
theorem star_missing_generic_error_witness :
    star_file ([] : Store) "bob" "g.txt" false = (.err 500, []) :=
  (star_missing_generic_error [] "bob" "g.txt" false).1 (by decide)

/-- C4: `get_mime_type` is a total deterministic function of the filename:
the primary lookup wins when conclusive; when it is inconclusive the
lowercased extension is looked up in the fixed fallback table, and any
filename still unresolved yields `application/octet-stream`; in particular
`report.docx` resolves to the wordprocessingml type and `unknown.xyz123` to
`application/octet-stream`. -/
theorem get_mime_type_resolution (g : String → Option String)
    (hd : g "report.docx" = none ∨
      g "report.docx" = some
        "application/vnd.openxmlformats-officedocument.wordprocessingml.document")
    (hx : g "unknown.xyz123" = none) :
    get_mime_type g "report.docx" =
      "application/vnd.openxmlformats-officedocument.wordprocessingml.document" ∧
    get_mime_type g "unknown.xyz123" = "application/octet-stream" ∧
    (∀ f m, g f = some m → get_mime_type g f = m) ∧
    (∀ f, g f = none →
      dictGet fallbackMimeTable (strLower (splitextExt f)) = none →
      get_mime_type g f = "application/octet-stream") := by
  refine ⟨?_, ?_, ?_, ?_⟩
  · rcases hd with h | h
    · simp only [get_mime_type, h]
      decide
    · simp [get_mime_type, h]
  · simp only [get_mime_type, hx]
    decide
  · intro f m hm
    simp [get_mime_type, hm]
  · intro f hn htable
    simp [get_mime_type, hn, htable]

/-- Witness for C4 with an inconclusive primary lookup. -/
theorem get_mime_type_resolution_witness :
    get_mime_type gNone "report.docx" =
      "application/vnd.openxmlformats-officedocument.wordprocessingml.document" :=
  (get_mime_type_resolution gNone (Or.inl rfl) rfl).1

/-- C3 counterexample: on an object whose cached metadata MIME type is
`text/plain` while the store content type header is `application/pdf`, the
list route reports `text/plain` and the share route reports
`application/pdf` — the two routes do not compute the presented MIME type
by one shared rule. -/
theorem list_share_mime_counterexample :
    (list_files gNone mixStore "alice").map (fun e => e.mime_type) =
      ["text/plain"] ∧
    generate_sas gNone mixStore "alice" "doc.bin" 1 0 =
      .ok { key := "alice/doc.bin", expiry := 3600,
            mimeParam := some "application/pdf" } "application/pdf" ∧
    "text/plain" ≠ "application/pdf" := by decide

/-- C3 (amended): the list route presents the cached metadata `mime_type`
falling back to `get_mime_type`, while the share route presents the store
content type header falling back to `get_mime_type`; the two agree whenever
the cached value and the header hold the same non-empty string (the state
upload establishes), but not through a shared rule. -/
theorem list_share_mime_sources (g : String → Option String) (s : Store)
    (email filename M : String) (b : Blob) (dur now : Nat)
    (hb : storeGet s (blobName email filename) = some b)
    (hmd : dictGet b.metadata "mime_type" = some M)
    (hct : b.contentType = some M) (hM : M ≠ "") :
    (∃ e, e ∈ list_files g s email ∧ e.mime_type = M ∧ e.size = b.size) ∧
    (∃ u, generate_sas g s email filename dur now = .ok u M ∧
      u.mimeParam = some M) := by
  constructor
  · refine ⟨listEntry g (blobName email filename, b), ?_, ?_, rfl⟩
    · rw [list_files]
      refine List.mem_map.mpr ⟨(blobName email filename, b), ?_, rfl⟩
      rw [prefixBlobs]
      refine List.mem_filter.mpr ⟨storeGet_mem _ _ _ hb, ?_⟩
      show strIsPrefixOf (email ++ "/") (blobName email filename) = true
      exact strIsPrefixOf_self_append (email ++ "/") filename
    · show (dictGet b.metadata "mime_type").getD
        (get_mime_type g (nameSeg (blobName email filename))) = M
      rw [hmd]
      rfl
  · refine ⟨SasUrl.mk (blobName email filename) (now + 3600 * dur) (some M),
      ?_, rfl⟩
    simp only [generate_sas, hb, hct]
    rw [if_neg hM]

/-- Witness for C3 on a concrete store whose header and cached value agree. -/
theorem list_share_mime_sources_witness :
    ∃ e, e ∈ list_files gNone starStoreDemo "alice" ∧
      e.mime_type = "text/plain" ∧ e.size = blobDemo.size :=
  (list_share_mime_sources gNone starStoreDemo "alice" "a.txt" "text/plain"
    blobDemo 1 0 (by decide) (by decide) (by decide) (by decide)).1

/-- C7: the search route returns exactly the members of its file view that
satisfy the conjunction of the three filters — empty query or
case-insensitive substring of the name, empty type filter or substring of
the MIME type, empty date filter or substring of the upload date — together
with the spec's three concrete examples. -/
theorem search_files_conjunctive (g : String → Option String) (s : Store)
    (email query tf df : String) :
    (∀ f, f ∈ search_files g s email query tf df ↔
      f ∈ searchView g s email ∧
      (query = "" ∨ SubStr (strLower query) (strLower f.name)) ∧
      (tf = "" ∨ SubStr tf f.mime_type) ∧
      (df = "" ∨ SubStr df f.upload_date)) ∧
    (search_files gSearchDemo searchStoreDemo "u" "a" "" "").map
      (fun e => e.name) = ["a.pdf"] ∧
    (search_files gSearchDemo searchStoreDemo "u" "" "image" "").map
      (fun e => e.name) = ["b.png"] ∧
    search_files gSearchDemo searchStoreDemo "u" "" "" "2099" = [] := by
  refine ⟨?_, by decide, by decide, by decide⟩
  intro f
  simp only [search_files, List.mem_filter, Bool.and_eq_true, Bool.or_eq_true,
    beq_iff_eq]
  constructor
  · rintro ⟨hmem, ⟨⟨h1, h2⟩, h3⟩⟩
    refine ⟨hmem, ?_, ?_, ?_⟩
    · rcases h1 with h | h
      · exact Or.inr ((strContains_iff _ _).mp h)
      · exact Or.inl ((strLower_eq_empty_iff query).mp h)
    · rcases h2 with h | h
      · exact Or.inr ((strContains_iff _ _).mp h)
      · exact Or.inl h
    · rcases h3 with h | h
      · exact Or.inr ((strContains_iff _ _).mp h)
      · exact Or.inl h
  · rintro ⟨hmem, h1, h2, h3⟩
    refine ⟨hmem, ⟨⟨?_, ?_⟩, ?_⟩⟩
    · rcases h1 with h | h
      · exact Or.inr ((strLower_eq_empty_iff query).mpr h)
      · exact Or.inl ((strContains_iff _ _).mpr h)
    · rcases h2 with h | h
      · exact Or.inr h
      · exact Or.inl ((strContains_iff _ _).mpr h)
    · rcases h3 with h | h
      · exact Or.inr h
      · exact Or.inl ((strContains_iff _ _).mpr h)

/-- C8 counterexample: for a derived preview stored at
`alice/thumbnails/pic.png`, the list route recovers the logical name
`thumbnails`, not everything after the first separator. -/
theorem list_name_counterexample :
    (list_files gNone segStoreDemo "alice").map (fun e => e.name) =
      ["thumbnails"] ∧
    "thumbnails" ≠ "thumbnails/pic.png" := by decide

/-- C8 (amended): the list route recovers the logical name as the second
slash-separated segment of the storage key — the characters strictly
between the first separator and the next one — so a logical name containing
a separator is truncated at it; for a key `{owner}/{rest}` with a slash-free
owner the recovered name is the leading slash-free run of `rest`. -/
theorem list_name_second_segment (owner rest : String)
    (h : '/' ∉ owner.data) :
    nameSeg (owner ++ "/" ++ rest) =
      String.mk (rest.data.takeWhile (fun c => c != '/')) ∧
    (∀ g s email, (list_files g s email).map (fun e => e.name) =
      (prefixBlobs s email).map (fun kv => nameSeg kv.1)) := by
  refine ⟨nameSeg_append owner rest h, ?_⟩
  intro g s email
  rw [list_files, List.map_map]
  rfl

/-- Witness for C8 on the derived-preview key shape. -/
theorem list_name_second_segment_witness :
    nameSeg ("alice" ++ "/" ++ "thumbnails/pic.png") =
      String.mk (("thumbnails/pic.png" : String).data.takeWhile
        (fun c => c != '/')) :=
  (list_name_second_segment "alice" "thumbnails/pic.png" (by decide)).1

/-- C9: storage usage sums the byte sizes of every object under the owner
prefix with no exclusion — adding any fresh object whose key carries the
prefix, derived previews included, adds exactly its size over 1,048,576 —
and the spec's three sizes yield exactly 3.5 MB. -/
theorem storage_usage_sums_all (s : Store) (email k : String) (b : Blob)
    (hfresh : storeGet s k = none)
    (hpre : strIsPrefixOf (email ++ "/") k = true) :
    storage_usage (storePut s k b) email =
      storage_usage s email + (b.size : ℚ) / (1024 * 1024) ∧
    storage_usage usageStoreDemo "alice" = 7 / 2 := by
  constructor
  · rw [storePut_fresh s k b hfresh, storage_usage, storage_usage, prefixBlobs,
      prefixBlobs, List.filter_append]
    have hf : List.filter (fun kv => strIsPrefixOf (email ++ "/") kv.1)
        [(k, b)] = [(k, b)] := by
      simp [hpre]
    rw [hf, List.map_append, List.sum_append]
    simp [add_div]
  · have h : prefixBlobs usageStoreDemo "alice" = usageStoreDemo := by decide
    rw [storage_usage, h]
    norm_num [usageStoreDemo]

/-- Witness for C9: a fresh derived preview is counted. -/
theorem storage_usage_sums_all_witness :
    storage_usage (storePut usageStoreDemo "alice/thumbnails/extra.png"
        blobDemo) "alice" =
      storage_usage usageStoreDemo "alice" +
        (blobDemo.size : ℚ) / (1024 * 1024) :=
  (storage_usage_sums_all usageStoreDemo "alice" "alice/thumbnails/extra.png"
    blobDemo (by decide) (by decide)).1

/-- The derived preview key factors through the owner prefix. -/
theorem thumbKey_split (email filename : String) :
    thumbKey email filename =
      (email ++ "/") ++ ("thumbnails/" ++ filename ++ ".png") := by
  have h : ("/thumbnails/" : String) = "/" ++ "thumbnails/" := rfl
  rw [thumbKey, h]
  apply String.ext
  simp only [strData_append, List.append_assoc]

/-- C10: deleting an object removes only the key `{owner}/{name}`: the
derived preview at `{owner}/thumbnails/{name}.png` survives the delete
unchanged, is still enumerated under the owner prefix, and is still counted
by the storage-usage sum. -/
theorem delete_leaves_thumbnail (s : Store) (email filename : String)
    (ob tb : Blob)
    (ho : storeGet s (blobName email filename) = some ob)
    (ht : storeGet s (thumbKey email filename) = some tb) :
    (delete_file s email filename).1 =
      .ok ("File " ++ filename ++ " deleted successfully") 200 ∧
    storeGet (delete_file s email filename).2 (blobName email filename) =
      none ∧
    storeGet (delete_file s email filename).2 (thumbKey email filename) =
      some tb ∧
    (thumbKey email filename, tb) ∈
      prefixBlobs (delete_file s email filename).2 email ∧
    (tb.size : ℚ) / (1024 * 1024) ≤
      storage_usage (delete_file s email filename).2 email := by
  have hne : thumbKey email filename ≠ blobName email filename := by
    intro he
    have hlen := congrArg String.length he
    rw [thumbKey, blobName] at hlen
    simp only [String.length_append] at hlen
    have e1 : ("/thumbnails/" : String).length = 12 := rfl
    have e2 : (".png" : String).length = 4 := rfl
    have e3 : ("/" : String).length = 1 := rfl
    rw [e1, e2, e3] at hlen
    omega
  have hd1 : (delete_file s email filename).1 =
      .ok ("File " ++ filename ++ " deleted successfully") 200 := by
    simp [delete_file, ho]
  have hd2 : (delete_file s email filename).2 =
      storeErase s (blobName email filename) := by
    simp [delete_file, ho]
  have hpb : (thumbKey email filename, tb) ∈
      prefixBlobs (storeErase s (blobName email filename)) email := by
    rw [prefixBlobs]
    refine List.mem_filter.mpr ⟨?_, ?_⟩
    · rw [storeErase]
      refine List.mem_filter.mpr ⟨storeGet_mem _ _ _ ht, ?_⟩
      simp [hne]
    · show strIsPrefixOf (email ++ "/") (thumbKey email filename) = true
      rw [thumbKey_split]
      exact strIsPrefixOf_self_append (email ++ "/") _
  refine ⟨hd1, ?_, ?_, ?_, ?_⟩
  · rw [hd2]
    exact storeGet_storeErase_self ..
  · rw [hd2, storeGet_storeErase_ne _ _ _ hne]
    exact ht
  · rw [hd2]
    exact hpb
  · rw [hd2, storage_usage]
    have hmem : (tb.size : ℚ) ∈
        (prefixBlobs (storeErase s (blobName email filename)) email).map
          (fun kv => (kv.2.size : ℚ)) :=
      List.mem_map.mpr ⟨(thumbKey email filename, tb), hpb, rfl⟩
    have hnn : ∀ x ∈ (prefixBlobs (storeErase s (blobName email filename))
        email).map (fun kv => (kv.2.size : ℚ)), (0 : ℚ) ≤ x := by
      rintro x hx
      obtain ⟨kv, hkv, rfl⟩ := List.mem_map.mp hx
      positivity
    have hsum := List.single_le_sum hnn _ hmem
    exact (div_le_div_iff_of_pos_right (by norm_num)).mpr hsum

/-- Witness for C10 on a concrete store holding an image and its preview. -/
theorem delete_leaves_thumbnail_witness :
    storeGet (delete_file deleteStoreDemo "alice" "pic.png").2
        (thumbKey "alice" "pic.png") =
      some { size := 524288, contentType := none, metadata := [],
             bytes := [] } :=
  (delete_leaves_thumbnail deleteStoreDemo "alice" "pic.png"
    { size := 1048576, contentType := none, metadata := [], bytes := [] }
    { size := 524288, contentType := none, metadata := [], bytes := [] }
    (by decide) (by decide)).2.2.1

/-- C5: on a file whose extension-inferred MIME type starts with `image/`
and whose payload decodes as an image, the thumbnail route returns a signed
URL for the derived key `{owner}/thumbnails/{name}.png` with one hour of
validity, persists the PNG re-encoding of the resized image at exactly that
key — overwriting whatever was there and touching no other key — and the
resized image fits the 100 by 100 box, is unchanged when it already fits,
and keeps the aspect ratio up to rounding. -/
theorem generate_thumbnail_image_behavior (g : String → Option String)
    (decode : Bytes → Option Img) (encodePNG : Img → Bytes) (s : Store)
    (email filename : String) (now : Nat) (b : Blob) (img : Img)
    (hmime : strIsPrefixOf "image/" (guessOrOctet g filename) = true)
    (hget : storeGet s (blobName email filename) = some b)
    (hdec : decode b.bytes = some img)
    (hw : 1 ≤ img.width) (hh : 1 ≤ img.height) :
    (generate_thumbnail g decode encodePNG s email filename now).1 =
      .url (SasUrl.mk (thumbKey email filename) (now + 3600 * 1) none) ∧
    storeGet (generate_thumbnail g decode encodePNG s email filename now).2
        (thumbKey email filename) =
      some (Blob.mk (encodePNG (pilThumbnail100 img)).length none []
        (encodePNG (pilThumbnail100 img))) ∧
    (∀ k, k ≠ thumbKey email filename →
      storeGet (generate_thumbnail g decode encodePNG s email filename now).2
          k = storeGet s k) ∧
    (pilThumbnail100 img).width ≤ 100 ∧ (pilThumbnail100 img).height ≤ 100 ∧
    (img.width ≤ 100 ∧ img.height ≤ 100 → pilThumbnail100 img = img) ∧
    ((pilThumbnail100 img).width * img.height ≤
        img.width * (pilThumbnail100 img).height + max img.width img.height ∧
      img.width * (pilThumbnail100 img).height ≤
        (pilThumbnail100 img).width * img.height + max img.width img.height) := by
  have him : strIsPrefixOf "image" (guessOrOctet g filename) = true := by
    have h : ("image/" : String) = "image" ++ "/" := rfl
    exact strIsPrefixOf_mono "image" "/" _ (h ▸ hmime)
  have hres : generate_thumbnail g decode encodePNG s email filename now =
      (.url (SasUrl.mk (thumbKey email filename) (now + 3600 * 1) none),
       storePut s (thumbKey email filename)
         (Blob.mk (encodePNG (pilThumbnail100 img)).length none []
           (encodePNG (pilThumbnail100 img)))) := by
    simp [generate_thumbnail, him, hget, hdec]
  refine ⟨by rw [hres], ?_, ?_, (pilThumbnail100_le img hw hh).1,
    (pilThumbnail100_le img hw hh).2, pilThumbnail100_fits img,
    pilThumbnail100_aspect img hw hh⟩
  · rw [hres]
    exact storeGet_storePut_self ..
  · intro k hk
    rw [hres]
    exact storeGet_storePut_ne _ _ _ _ hk

/-- Witness for C5 on a concrete 250 by 100 image. -/
theorem generate_thumbnail_image_behavior_witness :
    (generate_thumbnail gImgDemo decodeDemo encodeDemo thumbStoreDemo
        "alice" "pic.bmp" 0).1 =
      .url (SasUrl.mk (thumbKey "alice" "pic.bmp") (0 + 3600 * 1) none) :=
  (generate_thumbnail_image_behavior gImgDemo decodeDemo encodeDemo
    thumbStoreDemo "alice" "pic.bmp" 0
    { size := 1, contentType := none, metadata := [], bytes := [7] }
    { width := 250, height := 100, tag := 7 }
    (by decide) (by decide) (by decide) (by decide) (by decide)).1

/-- C6: outcome classification of the thumbnail route: a filename whose
extension-inferred MIME type does not start with `image/` yields the
no-preview marker as a normal success, never an error (assuming the primary
lookup only returns MIME types in which a leading `image` continues with a
slash); a file typed `image/` whose payload fails to decode yields the 500
error payload, never the no-preview marker. -/
theorem generate_thumbnail_outcome_classes (g : String → Option String)
    (decode : Bytes → Option Img) (encodePNG : Img → Bytes) (s : Store)
    (email filename : String) (now : Nat)
    (hg : ∀ f m, g f = some m → strIsPrefixOf "image" m = true →
      strIsPrefixOf "image/" m = true) :
    (strIsPrefixOf "image/" (guessOrOctet g filename) = false →
      generate_thumbnail g decode encodePNG s email filename now =
        (.noThumb "No thumbnail available", s)) ∧
    (strIsPrefixOf "image/" (guessOrOctet g filename) = true →
      ∀ b, storeGet s (blobName email filename) = some b →
        decode b.bytes = none →
        generate_thumbnail g decode encodePNG s email filename now =
          (.err 500, s)) := by
  constructor
  · intro hni
    have him : strIsPrefixOf "image" (guessOrOctet g filename) = false := by
      cases hgf : g filename with
      | none =>
          rw [guessOrOctet, hgf]
          decide
      | some m =>
          rw [guessOrOctet, hgf]
          simp only [Option.getD_some]
          rcases Bool.eq_false_or_eq_true (strIsPrefixOf "image" m) with h | h
          · exfalso
            have h2 := hg filename m hgf h
            rw [guessOrOctet, hgf] at hni
            simp only [Option.getD_some] at hni
            rw [h2] at hni
            simp at hni
          · exact h
    simp [generate_thumbnail, him]
  · intro hi b hb hdec
    have him : strIsPrefixOf "image" (guessOrOctet g filename) = true := by
      have h : ("image/" : String) = "image" ++ "/" := rfl
      exact strIsPrefixOf_mono "image" "/" _ (h ▸ hi)
    simp [generate_thumbnail, him, hb, hdec]

/-- Witness for C6: a `.pdf` file yields the no-preview marker. -/
theorem generate_thumbnail_outcome_classes_witness :
    generate_thumbnail gImgDemo decodeDemo encodeDemo thumbStoreDemo
        "alice" "doc.pdf" 0 = (.noThumb "No thumbnail available",
          thumbStoreDemo) :=
  (generate_thumbnail_outcome_classes gImgDemo decodeDemo encodeDemo
    thumbStoreDemo "alice" "doc.pdf" 0
    (by
      intro f m hf h1
      by_cases hfe : f = "pic.bmp"
      · subst hfe
        simp only [gImgDemo, if_pos] at hf
        injection hf with hm
        rw [← hm]
        decide
      · simp only [gImgDemo] at hf
        rw [if_neg hfe] at hf
        exact absurd hf (by simp))).1 (by decide)

end WeezCloud
